import Mathlib

/-!
# Verification of the RAW_HOPPER ingest core (`raw_hopper.py`, class `HopperLogic`)

This file gives a shallow embedding of the core logic of the RAW_HOPPER photo
ingest tool and proves the specification claims about it.

Modelling conventions:
* Python strings are Lean `String`s; machine paths are opaque strings joined
  with `"/"` (the separator choice is not load-bearing for any claim).
* The filesystem is an explicit state `FS`: a list of directory paths and a
  list of `(path, content)` file entries.  `os.path.exists`, `os.makedirs`,
  `Path.touch`, `shutil.move`, `shutil.copytree`, `os.listdir` and `os.rename`
  are modelled as operations on that state.  `os.makedirs` is modelled as
  creating the single requested directory (implicit creation of parent
  directories is elided; no claim depends on intermediate directories).
* External capabilities (the `exifread` library, `win32api` drive enumeration,
  `os.path.getmtime`) are an explicit environment `Env` of oracles, mirroring
  the `EXIF_AVAILABLE` / `WIN32_AVAILABLE` flags and the library calls.
* Python exceptions are `Except String`; a Python function that may raise is
  embedded with result type `Except String _`, and `try/except` is embedded as
  a `match` on that result.
* The bounded `while` loop in the duplicate-filename handler is embedded with
  explicit fuel: fuel `10000 - counter` is exactly the remaining allowance of
  the loop guard `counter < max_attempts`.
-/

namespace RawHopper

/-! ## Strings and paths -/

/-- Python `str.upper()` restricted to its ASCII behaviour (all configured
extensions and tested filenames are ASCII). -/
def upperStr (s : String) : String :=
  ⟨s.data.map Char.toUpper⟩

/-- `String.isPrefixOf` on the underlying character lists. -/
def strIsPrefixOf (p s : String) : Bool :=
  p.data.isPrefixOf s.data

/-- Python `str.endswith` on the underlying character lists. -/
def strEndsWith (s suffix : String) : Bool :=
  suffix.data.isSuffixOf s.data

/-- `String.drop` on the underlying character lists. -/
def strDrop (s : String) (n : Nat) : String :=
  ⟨s.data.drop n⟩

/-- Python `str.strip()`: remove leading and trailing whitespace. -/
def stripStr (s : String) : String :=
  ⟨((s.data.dropWhile Char.isWhitespace).reverse.dropWhile Char.isWhitespace).reverse⟩

/-- `os.path.join` for the embedding (POSIX-style separator). -/
def pjoin (a b : String) : String :=
  a ++ "/" ++ b

/-- Python `str.split(sep)` for a one-character separator: splits at every
occurrence, keeping empty segments (so `"a,b,".split(",") = ["a","b",""]`). -/
def splitOnCharAux (c : Char) : List Char → List Char → List (List Char)
  | [], acc => [acc.reverse]
  | x :: xs, acc =>
    if x = c then acc.reverse :: splitOnCharAux c xs []
    else splitOnCharAux c xs (x :: acc)

/-- Python `s.split(c)` (single-character separator). -/
def splitOnChar (c : Char) (s : String) : List String :=
  (splitOnCharAux c s.data []).map (fun l => ⟨l⟩)

/-- One fueled step of Python `str.replace`: replace non-overlapping
occurrences of `pat` left to right.  The fuel is the length of the scanned
list, which suffices because every step consumes at least one character;
an empty pattern is returned unchanged (the tool only replaces the literal
`"{month_name}"`). -/
def replaceAllLoop (pat repl : List Char) : Nat → List Char → List Char
  | 0, l => l
  | _ + 1, [] => []
  | fuel + 1, x :: xs =>
    if pat ≠ [] ∧ pat.isPrefixOf (x :: xs) = true then
      repl ++ replaceAllLoop pat repl fuel ((x :: xs).drop pat.length)
    else x :: replaceAllLoop pat repl fuel xs

/-- Python `s.replace(pat, repl)`. -/
def replaceAll (s pat repl : String) : String :=
  ⟨replaceAllLoop pat.data repl.data s.data.length s.data⟩

/-- Python `int(s)` on a nonempty all-digits string (the field parsing done
by `strptime`); `none` otherwise. -/
def digitsToNat? (s : String) : Option Nat :=
  if s.data ≠ [] ∧ s.data.all Char.isDigit then
    some (s.data.foldl (fun acc c => acc * 10 + (c.toNat - '0'.toNat)) 0)
  else none

/-- Python `str.rfind` on a character list: index of the last occurrence,
`-1` when absent. -/
def rfindChar (c : Char) : List Char → Int
  | [] => -1
  | x :: xs =>
    let r := rfindChar c xs
    if 0 ≤ r then r + 1 else if x = c then 0 else -1

/-- `os.path.splitext`: split off the extension at the last dot, provided the
dot lies after the last separator and the base name left of it is not made of
dots only (so `".bashrc"` has no extension). Mirrors CPython `genericpath`. -/
def splitext (p : String) : String × String :=
  let l := p.data
  let sepIndex := rfindChar '/' l
  let dotIndex := rfindChar '.' l
  if sepIndex < dotIndex then
    let start := (sepIndex + 1).toNat
    let middle := (l.drop start).take (dotIndex.toNat - start)
    if middle.any (fun ch => ch ≠ '.') then
      (⟨l.take dotIndex.toNat⟩, ⟨l.drop dotIndex.toNat⟩)
    else (p, "")
  else (p, "")

/-- `os.path.basename`: the part after the last separator. -/
def basename (p : String) : String :=
  ⟨(p.data.reverse.takeWhile (fun ch => ch ≠ '/')).reverse⟩

/-- `os.path.dirname`: the part before the last separator (empty if none). -/
def dirname (p : String) : String :=
  ⟨((p.data.reverse.dropWhile (fun ch => ch ≠ '/')).drop 1).reverse⟩

/-! ## Timestamps and `strftime` -/

/-- A `datetime.datetime` value (date and time fields used by the tool). -/
structure DateTime where
  year : Nat
  month : Nat
  day : Nat
  hour : Nat
  minute : Nat
  second : Nat
deriving DecidableEq

/-- Full English month name, as produced by `strftime("%B")` in the C locale. -/
def monthName : Nat → String
  | 1 => "January"
  | 2 => "February"
  | 3 => "March"
  | 4 => "April"
  | 5 => "May"
  | 6 => "June"
  | 7 => "July"
  | 8 => "August"
  | 9 => "September"
  | 10 => "October"
  | 11 => "November"
  | 12 => "December"
  | _ => ""

/-- Zero-padded two-digit decimal rendering (`%m`, `%d`, `%H`, `%M`, `%S`). -/
def pad2 (n : Nat) : String :=
  if n < 10 then "0" ++ Nat.repr n else Nat.repr n

/-- Modelled from the spec and the C library contract of
`datetime.strftime`: the format directives actually used by the tool
(`%Y`, `%m`, `%B`, and the other numeric fields) are expanded; an
unrecognised directive is kept verbatim. -/
def strftimeAux (d : DateTime) : List Char → List Char
  | [] => []
  | '%' :: c :: rest =>
    (match c with
     | 'Y' => (Nat.repr d.year).data
     | 'm' => (pad2 d.month).data
     | 'd' => (pad2 d.day).data
     | 'H' => (pad2 d.hour).data
     | 'M' => (pad2 d.minute).data
     | 'S' => (pad2 d.second).data
     | 'B' => (monthName d.month).data
     | '%' => ['%']
     | other => ['%', other]) ++ strftimeAux d rest
  | c :: rest => c :: strftimeAux d rest

/-- `date.strftime(fmt)` for the directives used by the tool. -/
def strftime (d : DateTime) (fmt : String) : String :=
  ⟨strftimeAux d fmt.data⟩

/-! ## Configuration store -/

/-- The in-memory configuration: a flat string-keyed mapping, embedded as an
association list with unique keys (the Python `dict`). -/
abbrev Config := List (String × String)

/-- `HopperLogic.DEFAULT_CONFIG`. -/
def DEFAULT_CONFIG : Config :=
  [("source_path", ""),
   ("destination_volume", ""),
   ("destination_volume_label", ""),
   ("template_path", ""),
   ("year_format", "%Y"),
   ("month_format", "%Y-%m_%B"),
   ("session_format", "Session_{month_name}"),
   ("file_extensions", ".RAF, .JPG")]

/-- Python `dict` lookup `config[k]` (`none` when the key is absent). -/
def cfind (c : Config) (k : String) : Option String :=
  (c.find? (fun p => p.1 == k)).map Prod.snd

/-- `config[k]` where the engine relies on the key being present (load always
merges the defaults in, so every engine key exists); absent keys read `""`. -/
def cfget (c : Config) (k : String) : String :=
  (cfind c k).getD ""

/-- Python `dict.__setitem__`: replace the first binding of the key, or append
a new binding. -/
def setKey : Config → String → String → Config
  | [], k, v => [(k, v)]
  | (k', v') :: rest, k, v =>
    if k' == k then (k, v) :: rest else (k', v') :: setKey rest k v

/-- Python `base.update(overlay)` on dictionaries. -/
def dictUpdate (base overlay : Config) : Config :=
  overlay.foldl (fun acc kv => setKey acc kv.1 kv.2) base

/-- The on-disk configuration file as seen by `json.load`: either a parsed
mapping or unparseable content.  (`json.dump`/`json.load` of a flat
string-to-string `dict` round-trips the mapping; the JSON text itself is not
load-bearing, so the file is embedded by its parse result.) -/
inductive ConfigFile where
  | valid (entries : Config)
  | corrupt
deriving DecidableEq

/-- `HopperLogic.load_config`: missing file or parse failure yields the
defaults; otherwise the defaults are merged with the loaded mapping
(`config = DEFAULT_CONFIG.copy(); config.update(loaded)`). -/
def load_config : Option ConfigFile → Config
  | none => DEFAULT_CONFIG
  | some .corrupt => DEFAULT_CONFIG
  | some (.valid loaded) => dictUpdate DEFAULT_CONFIG loaded

/-- `HopperLogic.save_config`: serialize the in-memory mapping to the file. -/
def save_config (c : Config) : Option ConfigFile :=
  some (.valid c)

/-! ## Extension filtering -/

/-- `HopperLogic.get_file_extensions`:
`[ext.strip().upper() for ext in ext_string.split(',')]`. -/
def get_file_extensions (cfg : Config) : List String :=
  (splitOnChar ',' (cfget cfg "file_extensions")).map (fun e => upperStr (stripStr e))

/-- `HopperLogic.should_process_file`. -/
def should_process_file (cfg : Config) (file_path : String) : Bool :=
  let ext := upperStr (splitext file_path).2
  (get_file_extensions cfg).contains ext

/-! ## Filesystem state -/

/-- The filesystem fragment visible to the tool: directory paths plus file
entries `(path, content)`. -/
structure FS where
  dirs : List String
  files : List (String × String)
deriving DecidableEq

/-- The paths of all files. -/
def fileNames (fs : FS) : List String :=
  fs.files.map Prod.fst

/-- `os.path.exists`. -/
def pathExists (fs : FS) (p : String) : Bool :=
  fs.dirs.contains p || (fileNames fs).contains p

/-- `os.makedirs(p, exist_ok=True)` (parent creation elided, see header). -/
def makedirs (fs : FS) (p : String) : FS :=
  if fs.dirs.contains p then fs else ⟨p :: fs.dirs, fs.files⟩

/-- `Path(p).touch()`: create an empty file unless the path already exists
(an existing file only gets a new mtime; its content is unchanged). -/
def touch (fs : FS) (p : String) : FS :=
  if (fileNames fs).contains p then fs else ⟨fs.dirs, (p, "") :: fs.files⟩

/-- `shutil.move(src, dst)`: raises when the source file is missing. -/
def moveFile (fs : FS) (src dst : String) : Except String FS :=
  match fs.files.find? (fun q => q.1 == src) with
  | none => .error ("No such file or directory: " ++ src)
  | some entry =>
    .ok ⟨fs.dirs, (dst, entry.2) :: fs.files.filter (fun q => q.1 != src)⟩

/-- Re-root a path from below `src` to below `dst`. -/
def reroot (src dst p : String) : String :=
  dst ++ strDrop p src.length

/-- `shutil.copytree(src, dst)`: fails when `dst` already exists; otherwise
copies every directory and file under `src` to the same relative place under
`dst`. -/
def copytree (fs : FS) (src dst : String) : Except String FS :=
  if pathExists fs dst then .error ("FileExistsError: " ++ dst)
  else
    let newDirs := (fs.dirs.filter (fun d => strIsPrefixOf (src ++ "/") d)).map (reroot src dst)
    let newFiles := (fs.files.filter (fun q => strIsPrefixOf (src ++ "/") q.1)).map
      (fun q => (reroot src dst q.1, q.2))
    .ok ⟨dst :: newDirs ++ fs.dirs, newFiles ++ fs.files⟩

/-- `os.listdir(p)`: names of the entries directly inside directory `p`. -/
def listdir (fs : FS) (p : String) : List String :=
  (fs.dirs ++ fileNames fs).filterMap (fun q =>
    if strIsPrefixOf (p ++ "/") q then
      let n := strDrop q (p.length + 1)
      if n.data.contains '/' then none else some n
    else none)

/-- `os.rename(old, new)` on a file entry. -/
def renamePath (fs : FS) (old new_ : String) : FS :=
  ⟨fs.dirs, fs.files.map (fun q => if q.1 == old then (new_, q.2) else q)⟩

/-! ## External environment (library capabilities) -/

/-- The external collaborators of the core logic: the module-level
availability flags, the `win32api` drive enumeration, and the per-file
oracles corresponding to `exifread.process_file` and `os.path.getmtime`.
`win_drives` is the post-processed `(drive_path, volume_label)` list built by
`get_drives` from `win32api` (labels already defaulted to `Drive_<letter>`).
`exif_tag` is the raw `EXIF DateTimeOriginal` string when the file is readable
and carries the tag; `read_fails` marks files whose `open`/`process_file`
raises; `mtime` is `datetime.fromtimestamp(os.path.getmtime(p))`, `none` when
`getmtime` raises. -/
structure Env where
  exif_available : Bool
  win32_available : Bool
  win_drives : List (String × String)
  exif_tag : String → Option String
  read_fails : String → Bool
  mtime : String → Option DateTime

/-- `HopperLogic.get_drives`. -/
def get_drives (env : Env) : List (String × String) :=
  if !env.win32_available then [("C:\\", "Local Drive")] else env.win_drives

/-- `HopperLogic.resolve_volume_label_to_drive`: first drive whose label
matches exactly. -/
def resolve_volume_label_to_drive (env : Env) (volume_label : String) : Option String :=
  ((get_drives env).find? (fun d => d.2 == volume_label)).map Prod.fst

/-! ## Date extraction -/

/-- Modelled from the spec of `datetime.strptime(s, "%Y:%m:%d %H:%M:%S")`:
six colon/space-delimited decimal fields with the usual range checks
(day-of-month validation simplified to `1..31`; no claim depends on
calendar-exact day counts). -/
def parse_exif_datetime (s : String) : Option DateTime :=
  match splitOnChar ' ' s with
  | [d, t] =>
    match splitOnChar ':' d, splitOnChar ':' t with
    | [ys, ms, ds], [hs, mis, ss] =>
      match digitsToNat? ys, digitsToNat? ms, digitsToNat? ds,
            digitsToNat? hs, digitsToNat? mis, digitsToNat? ss with
      | some y, some mo, some dd, some h, some mi, some sec =>
        if y ≤ 9999 ∧ 1 ≤ mo ∧ mo ≤ 12 ∧ 1 ≤ dd ∧ dd ≤ 31 ∧ h ≤ 23 ∧ mi ≤ 59 ∧ sec ≤ 59
        then some ⟨y, mo, dd, h, mi, sec⟩ else none
      | _, _, _, _, _, _ => none
    | _, _ => none
  | _ => none

/-- `HopperLogic.get_exif_date`.  When `exifread` is unavailable the mtime
fallback is unguarded, so a `getmtime` failure raises out of the function
(`Except.error`).  When `exifread` is available, any failure inside the
`try` (unreadable file, missing tag, malformed value) silently falls back to
the guarded mtime read, which yields `none` when that also fails. -/
def get_exif_date (env : Env) (file_path : String) : Except String (Option DateTime) :=
  if !env.exif_available then
    match env.mtime file_path with
    | some d => .ok (some d)
    | none => .error ("os.path.getmtime failed: " ++ file_path)
  else
    let fromTag : Option DateTime :=
      if env.read_fails file_path then none
      else match env.exif_tag file_path with
        | some raw => parse_exif_datetime raw
        | none => none
    match fromTag with
    | some dt => .ok (some dt)
    | none => .ok (env.mtime file_path)

/-! ## Path builder -/

/-- `HopperLogic.construct_path`. -/
def construct_path (cfg : Config) (date : DateTime) : String × String × String :=
  let year_folder := strftime date (cfget cfg "year_format")
  let month_folder := strftime date (cfget cfg "month_format")
  let session_name := replaceAll (cfget cfg "session_format") "{month_name}" (strftime date "%B")
  (year_folder, month_folder, session_name)

/-! ## Session locator -/

/-- `HopperLogic.find_or_create_session`.  Returns the new filesystem state
and the session path.  The `try/except` around the template copy is the
`match` on `copytree`; note that the `os.makedirs(dirname(session_path))`
executed before the failing `copytree` persists into the fallback, exactly as
in the Python code. -/
def find_or_create_session (cfg : Config) (fs : FS)
    (destination_root year_folder month_folder session_name : String) : FS × String :=
  let session_path := pjoin (pjoin (pjoin destination_root year_folder) month_folder) session_name
  let capture_path := pjoin session_path "Capture"
  let session_db := pjoin session_path (session_name ++ ".cosessiondb")
  if pathExists fs session_db then
    let fs1 := if pathExists fs capture_path then fs else makedirs fs capture_path
    (fs1, session_path)
  else
    let template_path := cfget cfg "template_path"
    if template_path == "" || !pathExists fs template_path then
      (touch (makedirs fs capture_path) session_db, session_path)
    else
      let fs0 := makedirs fs (dirname session_path)
      match copytree fs0 template_path session_path with
      | .ok fs1 =>
        let fs2 :=
          match (listdir fs1 session_path).find? (fun item => strEndsWith item ".cosessiondb") with
          | some item => renamePath fs1 (pjoin session_path item) session_db
          | none => fs1
        let fs3 := if pathExists fs2 capture_path then fs2 else makedirs fs2 capture_path
        (fs3, session_path)
      | .error _ => (touch (makedirs fs0 capture_path) session_db, session_path)

/-! ## Collision resolution -/

/-- The filename produced at counter value `counter`:
`f'{base}_{counter}{ext}'` joined under the capture folder. -/
def suffixedName (capture_folder base ext : String) (counter : Nat) : String :=
  pjoin capture_folder (base ++ "_" ++ Nat.repr counter ++ ext)

/-- The `while os.path.exists(dest_file) and counter < max_attempts` loop,
with fuel `max_attempts - counter`: the loop body may run while
`counter < max_attempts`, i.e. exactly `fuel` more times.  Returns the final
`(dest_file, counter)` pair. -/
def collisionLoop (occupied : String → Bool) (capture_folder base ext : String) :
    Nat → String → Nat → String × Nat
  | 0, dest_file, counter => (dest_file, counter)
  | fuel + 1, dest_file, counter =>
    if occupied dest_file then
      collisionLoop occupied capture_folder base ext fuel
        (suffixedName capture_folder base ext counter) (counter + 1)
    else (dest_file, counter)

/-- The duplicate-filename handling of `HopperLogic.ingest_files` (the
`if os.path.exists(dest_file): ...` block), abstracted over the existence
check `occupied` (instantiated with `pathExists` by the engine): computes the
destination path for a candidate with basename `name`, or the
"Too many duplicate filenames" error. -/
def resolve_dest (occupied : String → Bool) (capture_folder name : String) :
    Except String String :=
  let dest_file := pjoin capture_folder name
  if occupied dest_file then
    let base := (splitext name).1
    let ext := (splitext name).2
    let max_attempts := 10000
    let r := collisionLoop occupied capture_folder base ext (max_attempts - 1) dest_file 1
    if max_attempts ≤ r.2 then .error "Too many duplicate filenames"
    else .ok r.1
  else .ok dest_file

/-! ## Ingest engine -/

/-- The body of the per-candidate `try` block in `HopperLogic.ingest_files`:
every way it can fail is an `Except.error` that the batch loop catches. -/
def process_candidate (env : Env) (cfg : Config) (destination_drive : String)
    (fs : FS) (file_path : String) : Except String FS := do
  let dateOpt ← get_exif_date env file_path
  match dateOpt with
  | none => .error "Could not determine file date"
  | some date =>
    let seg := construct_path cfg date
    let r := find_or_create_session cfg fs destination_drive seg.1 seg.2.1 seg.2.2
    let fs1 := r.1
    let session_path := r.2
    if session_path == "" then .error "Failed to create session folder"
    else
      let capture_folder := pjoin session_path "Capture"
      let dest_file ← resolve_dest (pathExists fs1) capture_folder (basename file_path)
      moveFile fs1 file_path dest_file

/-- The per-candidate failure record
`f'\u2717 Failed: {basename} - {str(e)}'`. -/
def failMsg (file_path e : String) : String :=
  "✗ Failed: " ++ basename file_path ++ " - " ++ e

/-- The `for idx, file_path in enumerate(files_to_process)` loop with its
`try/except`: a success advances `success_count`, any caught exception
advances `fail_count` and appends the failure record, and the loop continues
with the remaining candidates either way. -/
def process_loop (env : Env) (cfg : Config) (destination_drive : String) :
    List String → Nat → Nat → List String → FS → Nat × Nat × List String × FS
  | [], success_count, fail_count, errors, fs => (success_count, fail_count, errors, fs)
  | file_path :: rest, success_count, fail_count, errors, fs =>
    match process_candidate env cfg destination_drive fs file_path with
    | .ok fs1 =>
      process_loop env cfg destination_drive rest (success_count + 1) fail_count errors fs1
    | .error e =>
      process_loop env cfg destination_drive rest success_count (fail_count + 1)
        (errors ++ [failMsg file_path e]) fs

/-- The `os.walk` candidate enumeration: all file paths strictly below
`source_path` (the flat-path model of the recursive walk; enumeration order
is the file-list order, matching the spec's "no ordering guarantee"). -/
def walk_files (fs : FS) (source_path : String) : List String :=
  (fileNames fs).filter (fun p => strIsPrefixOf (source_path ++ "/") p)

/-- `HopperLogic.ingest_files`.  Returns `(success_count, fail_count,
error_messages)` and the final filesystem state.  The two step-1 precondition
failures short-circuit with an empty result, one message, and the state
untouched; `if not destination_drive` is Python truthiness, so an empty
resolved drive path also aborts. -/
def ingest_files (env : Env) (cfg : Config) (fs : FS) :
    (Nat × Nat × List String) × FS :=
  let source_path := cfget cfg "source_path"
  let volume_label := cfget cfg "destination_volume_label"
  if source_path == "" || !pathExists fs source_path then
    ((0, 0, ["Source path is invalid or does not exist"]), fs)
  else
    match resolve_volume_label_to_drive env volume_label with
    | none =>
      ((0, 0, ["Could not resolve volume label \x27" ++ volume_label ++ "\x27 to a drive"]), fs)
    | some destination_drive =>
      if destination_drive == "" then
        ((0, 0, ["Could not resolve volume label \x27" ++ volume_label ++ "\x27 to a drive"]), fs)
      else
        let files_to_process := (walk_files fs source_path).filter (should_process_file cfg)
        let r := process_loop env cfg destination_drive files_to_process 0 0 [] fs
        ((r.1, r.2.1, r.2.2.1), r.2.2.2)

/-! ## Derived definitions used by the verification -/

/-- Decimal digit characters of `n`, most significant first (the value of
`Nat.repr`); used to reason about the `_N` suffixes of collision
resolution. -/
def decChars (n : Nat) : List Char :=
  if n = 0 then ['0'] else ((Nat.digits 10 n).map Nat.digitChar).reverse

/-- The sequence of destination paths the duplicate handler tries for a
candidate with basename `name`: index `0` is the unsuffixed name, index
`k ≥ 1` is the `_k`-suffixed name. -/
def candidateName (capture_folder name : String) : Nat → String
  | 0 => pjoin capture_folder name
  | k + 1 => suffixedName capture_folder (splitext name).1 (splitext name).2 (k + 1)

/-- A capture-folder occupancy in which exactly the name tried at the final
counter value (`a_9999.x`) is free: every earlier candidate name exists. -/
def occAllBut9999 : String → Bool :=
  fun s => !(s == "C/a_9999.x")

/-- Concrete environment: no `exifread`, no `win32api` (so `get_drives`
yields the default volume), every file's mtime resolving to
2024-03-15 10:30:00. -/
def envLocal : Env :=
  ⟨false, false, [], fun _ => none, fun _ => false, fun _ => some ⟨2024, 3, 15, 10, 30, 0⟩⟩

/-- Concrete environment: `exifread` available and every file carrying a
well-formed `DateTimeOriginal` tag. -/
def envExif : Env :=
  ⟨true, false, [], fun _ => some "2024:03:15 10:30:00", fun _ => false, fun _ => none⟩

/-- Concrete environment: `exifread` available but no tag and no mtime, so
date extraction yields no date at all. -/
def envNoDate : Env :=
  ⟨true, false, [], fun _ => none, fun _ => false, fun _ => none⟩

/-- Concrete configuration pointing the run at `src` and the default
volume. -/
def cfgIngest : Config :=
  dictUpdate DEFAULT_CONFIG [("source_path", "src"), ("destination_volume_label", "Local Drive")]

/-- Concrete configuration with a volume label no drive carries. -/
def cfgBadLabel : Config :=
  dictUpdate DEFAULT_CONFIG [("source_path", "src"), ("destination_volume_label", "NOPE")]

/-- Concrete source tree holding two files with the same basename in
different directories. -/
def fsTwo : FS :=
  ⟨["src"], [("src/a.RAF", "one"), ("src/b/a.RAF", "two")]⟩

/-- Concrete filesystem already holding a session marker file for session
`S` under `R/Y/M`. -/
def fsMarker : FS :=
  ⟨[], [("R/Y/M/S/S.cosessiondb", "db")]⟩

/-- A concrete saved configuration mapping with one known and one unknown
key. -/
def mRound : Config :=
  [("source_path", "/test/path"), ("custom_key", "42")]

/-- Allowlist with a trailing comma, producing an empty segment. -/
def cfgTrailing : Config :=
  [("file_extensions", ".RAF, .JPG,")]

/-- The allowlist of the spec's reference example. -/
def cfgThree : Config :=
  [("file_extensions", ".RAF, .JPG, .CR2")]

/-- The failure records of a batch, in processing order: replay the
candidates front to back, threading the filesystem state exactly as the
engine does, and collect `failMsg` for each candidate whose processing
raises, skipping the successes.  This is the specification of the engine's
error list against which its output is compared. -/
def failure_records (env : Env) (cfg : Config) (drive : String) :
    List String → FS → List String
  | [], _ => []
  | file_path :: rest, fs =>
    match process_candidate env cfg drive fs file_path with
    | .ok fs1 => failure_records env cfg drive rest fs1
    | .error e => failMsg file_path e :: failure_records env cfg drive rest fs

/-- Concrete environment like `envLocal` except that one file
(`src/bad.RAF`) has no readable mtime, so its date extraction fails. -/
def envMixed : Env :=
  ⟨false, false, [], fun _ => none, fun _ => false,
   fun p => if p == "src/bad.RAF" then none else some ⟨2024, 3, 15, 10, 30, 0⟩⟩

/-- Concrete source tree with one processable file and one file whose date
extraction will fail under `envMixed`. -/
def fsMix : FS :=
  ⟨["src"], [("src/a.RAF", "one"), ("src/bad.RAF", "two")]⟩

/-! ## Decimal rendering: `Nat.repr` is injective

The `_N` suffixes of collision resolution are produced with `str(counter)`
(`Nat.repr` in the embedding); distinctness of the candidate names reduces
to injectivity of the decimal rendering. -/

theorem toDigitsCore_eq_decChars :
    ∀ (f n : Nat) (ds : List Char), n < f →
      Nat.toDigitsCore 10 f n ds = decChars n ++ ds := by
  intro f
  induction f with
  | zero => intro n ds h; omega
  | succ f ih =>
    intro n ds _
    show (if n / 10 = 0 then Nat.digitChar (n % 10) :: ds
          else Nat.toDigitsCore 10 f (n / 10) (Nat.digitChar (n % 10) :: ds)) = _
    by_cases hz : n / 10 = 0
    · simp only [hz, if_true]
      rcases Nat.eq_zero_or_pos n with h0 | hpos
      · subst h0; simp [decChars]; rfl
      · have hlt : n < 10 := by omega
        have hdig : Nat.digits 10 n = [n] := Nat.digits_of_lt 10 n (by omega) hlt
        simp [decChars, hdig, Nat.ne_of_gt hpos, Nat.mod_eq_of_lt hlt]
    · have hn10 : 10 ≤ n := by
        by_contra hc
        exact hz (Nat.div_eq_of_lt (by omega))
      have hdiv_lt : n / 10 < n := Nat.div_lt_self (by omega) (by omega)
      have hrec := ih (n / 10) (Nat.digitChar (n % 10) :: ds) (by omega)
      simp only [hz, if_false, hrec]
      have hdig : Nat.digits 10 n = (n % 10) :: Nat.digits 10 (n / 10) :=
        Nat.digits_def' (by norm_num) (by omega)
      simp [decChars, hdig, hz, show n ≠ 0 by omega]

theorem repr_eq_decChars (n : Nat) : Nat.repr n = ⟨decChars n⟩ := by
  show (Nat.toDigits 10 n).asString = _
  show (Nat.toDigitsCore 10 (n + 1) n []).asString = _
  rw [toDigitsCore_eq_decChars (n + 1) n [] (Nat.lt_succ_self n)]
  simp [List.asString]

theorem digitChar_inj_lt :
    ∀ a, a < 10 → ∀ b, b < 10 → Nat.digitChar a = Nat.digitChar b → a = b := by
  decide

theorem map_digitChar_inj :
    ∀ (l1 l2 : List Nat), (∀ x ∈ l1, x < 10) → (∀ x ∈ l2, x < 10) →
      l1.map Nat.digitChar = l2.map Nat.digitChar → l1 = l2 := by
  intro l1
  induction l1 with
  | nil => intro l2 _ _ h; cases l2 <;> simp_all
  | cons a l1 ih =>
    intro l2 h1 h2 h
    cases l2 with
    | nil => simp_all
    | cons b l2 =>
      simp only [List.map_cons, List.cons.injEq] at h
      have ha : a = b := digitChar_inj_lt a (h1 a (by simp)) b (h2 b (by simp)) h.1
      have := ih l2 (fun x hx => h1 x (by simp [hx])) (fun x hx => h2 x (by simp [hx])) h.2
      simp [ha, this]

theorem decChars_inj : ∀ m n : Nat, decChars m = decChars n → m = n := by
  have hne : ∀ k : Nat, k ≠ 0 → decChars k ≠ ['0'] := by
    intro k hk h
    have hd : (Nat.digits 10 k).map Nat.digitChar = ['0'] := by
      have := congrArg List.reverse h
      simpa [decChars, hk] using this
    have hnil : Nat.digits 10 k ≠ [] := Nat.digits_ne_nil_iff_ne_zero.mpr hk
    rcases hd10 : Nat.digits 10 k with _ | ⟨d, rest⟩
    · exact hnil hd10
    · rw [hd10] at hd
      cases rest with
      | nil =>
        simp only [List.map_cons, List.map_nil, List.cons.injEq, and_true] at hd
        have hdlt : d < 10 :=
          Nat.digits_lt_base (b := 10) (m := k) (by norm_num) (by simp [hd10])
        have hd0 : d = 0 := digitChar_inj_lt d hdlt 0 (by norm_num) hd
        have h3 := Nat.ofDigits_digits 10 k
        rw [hd10, hd0] at h3
        simp [Nat.ofDigits] at h3
        exact hk h3.symm
      | cons e r => simp at hd
  intro m n h
  by_cases hm : m = 0 <;> by_cases hn : n = 0
  · omega
  · exact absurd (by rw [← h, decChars, if_pos hm]) (hne n hn)
  · exact absurd (by rw [h, decChars, if_pos hn]) (hne m hm)
  · have h' : ((Nat.digits 10 m).map Nat.digitChar).reverse
        = ((Nat.digits 10 n).map Nat.digitChar).reverse := by
      simpa [decChars, hm, hn] using h
    have h'' := congrArg List.reverse h'
    simp only [List.reverse_reverse] at h''
    have := map_digitChar_inj (Nat.digits 10 m) (Nat.digits 10 n)
      (fun x hx => Nat.digits_lt_base (by norm_num) hx)
      (fun x hx => Nat.digits_lt_base (by norm_num) hx) h''
    exact Nat.digits_inj_iff.mp this

theorem nat_repr_inj {m n : Nat} (h : Nat.repr m = Nat.repr n) : m = n := by
  apply decChars_inj
  have h1 := repr_eq_decChars m
  have h2 := repr_eq_decChars n
  rw [h1, h2] at h
  exact congrArg String.data h

/-! ## Collision-loop characterization -/

theorem suffixedName_inj {cap b e : String} {j k : Nat}
    (h : suffixedName cap b e j = suffixedName cap b e k) : j = k := by
  have hd := congrArg String.data h
  simp only [suffixedName, pjoin, String.data_append, List.append_assoc] at hd
  have h1 := List.append_cancel_left hd
  have h2 := List.append_cancel_left h1
  have h3 := List.append_cancel_left h2
  have h4 := List.append_cancel_left h3
  have h5 := List.append_cancel_right h4
  exact nat_repr_inj (String.ext h5)

theorem collisionLoop_exit {occ : String → Bool} {cap b e dest : String} {c : Nat}
    (h : occ dest = false) :
    ∀ fuel, collisionLoop occ cap b e fuel dest c = (dest, c) := by
  intro fuel
  cases fuel <;> simp [collisionLoop, h]

theorem collisionLoop_finds {occ : String → Bool} {cap name : String} :
    ∀ (fuel c k : Nat), 1 ≤ c → c - 1 ≤ k → k ≤ c - 1 + fuel →
      (∀ j, c - 1 ≤ j → j < k → occ (candidateName cap name j) = true) →
      occ (candidateName cap name k) = false →
      collisionLoop occ cap (splitext name).1 (splitext name).2 fuel
          (candidateName cap name (c - 1)) c
        = (candidateName cap name k, k + 1) := by
  intro fuel
  induction fuel with
  | zero =>
    intro c k hc hck hkb _ hfree
    have hk : k = c - 1 := by omega
    subst hk
    have h1 : c - 1 + 1 = c := by omega
    rw [h1]
    simp [collisionLoop]
  | succ fuel ih =>
    intro c k hc hck hkb hocc hfree
    by_cases hk : k = c - 1
    · subst hk
      rw [collisionLoop_exit hfree]
      have h1 : c - 1 + 1 = c := by omega
      rw [h1]
    · have hcltk : c - 1 < k := by omega
      have hoccc : occ (candidateName cap name (c - 1)) = true :=
        hocc (c - 1) (le_refl _) hcltk
      have hstep : collisionLoop occ cap (splitext name).1 (splitext name).2 (fuel + 1)
          (candidateName cap name (c - 1)) c
          = collisionLoop occ cap (splitext name).1 (splitext name).2 fuel
              (suffixedName cap (splitext name).1 (splitext name).2 c) (c + 1) := by
        simp [collisionLoop, hoccc]
      rw [hstep]
      have hcand : suffixedName cap (splitext name).1 (splitext name).2 c
          = candidateName cap name ((c + 1) - 1) := by
        have h2 : (c + 1) - 1 = (c - 1) + 1 := by omega
        rw [h2]
        show suffixedName cap (splitext name).1 (splitext name).2 c
            = suffixedName cap (splitext name).1 (splitext name).2 (c - 1 + 1)
        rw [show c - 1 + 1 = c from by omega]
      rw [hcand]
      exact ih (c + 1) k (by omega) (by omega) (by omega)
        (fun j hj hjk => hocc j (by omega) hjk) hfree

theorem collisionLoop_exhausts {occ : String → Bool} {cap name : String} :
    ∀ (fuel c : Nat), 1 ≤ c →
      (∀ j, c - 1 ≤ j → j < c - 1 + fuel → occ (candidateName cap name j) = true) →
      collisionLoop occ cap (splitext name).1 (splitext name).2 fuel
          (candidateName cap name (c - 1)) c
        = (candidateName cap name (c - 1 + fuel), c + fuel) := by
  intro fuel
  induction fuel with
  | zero =>
    intro c hc _
    simp [collisionLoop]
  | succ fuel ih =>
    intro c hc hocc
    have hoccc : occ (candidateName cap name (c - 1)) = true :=
      hocc (c - 1) (le_refl _) (by omega)
    have hstep : collisionLoop occ cap (splitext name).1 (splitext name).2 (fuel + 1)
        (candidateName cap name (c - 1)) c
        = collisionLoop occ cap (splitext name).1 (splitext name).2 fuel
            (suffixedName cap (splitext name).1 (splitext name).2 c) (c + 1) := by
      simp [collisionLoop, hoccc]
    rw [hstep]
    have hcand : suffixedName cap (splitext name).1 (splitext name).2 c
        = candidateName cap name ((c + 1) - 1) := by
      have h2 : (c + 1) - 1 = (c - 1) + 1 := by omega
      rw [h2]
      show suffixedName cap (splitext name).1 (splitext name).2 c
          = suffixedName cap (splitext name).1 (splitext name).2 (c - 1 + 1)
      rw [show c - 1 + 1 = c from by omega]
    rw [hcand]
    have := ih (c + 1) (by omega) (fun j hj hjb => hocc j (by omega) (by omega))
    rw [this]
    have e1 : (c + 1) - 1 + fuel = c - 1 + (fuel + 1) := by omega
    have e2 : c + 1 + fuel = c + (fuel + 1) := by omega
    rw [e1, e2]

theorem resolve_dest_ok {occ : String → Bool} {cap name : String} {k : Nat}
    (hk : k ≤ 9998) (hfree : occ (candidateName cap name k) = false)
    (hocc : ∀ j, j < k → occ (candidateName cap name j) = true) :
    resolve_dest occ cap name = .ok (candidateName cap name k) := by
  unfold resolve_dest
  cases k with
  | zero =>
    have h0 : occ (pjoin cap name) = false := hfree
    simp [h0, candidateName]
  | succ k' =>
    have h0 : occ (pjoin cap name) = true := hocc 0 (by omega)
    simp only [h0, if_true]
    have hloop := @collisionLoop_finds occ cap name 9999 1 (k' + 1)
      (by omega) (by omega) (by omega) (fun j _ hjk => hocc j hjk) hfree
    simp only [candidateName] at hloop
    rw [hloop]
    simp [show ¬(10000 ≤ k' + 1 + 1) from by omega, candidateName]

theorem resolve_dest_error {occ : String → Bool} {cap name : String}
    (hocc : ∀ j, j ≤ 9998 → occ (candidateName cap name j) = true) :
    resolve_dest occ cap name = .error "Too many duplicate filenames" := by
  unfold resolve_dest
  have h0 : occ (pjoin cap name) = true := hocc 0 (by omega)
  simp only [h0, if_true]
  have hloop := @collisionLoop_exhausts occ cap name 9999 1
    (by omega) (fun j hj hjb => hocc j (by omega))
  simp only [candidateName] at hloop
  rw [hloop]
  simp

/-! ## Filesystem helper lemmas -/

theorem pathExists_makedirs_self (fs : FS) (p : String) :
    pathExists (makedirs fs p) p = true := by
  unfold makedirs
  split
  · next h => simp only [pathExists, h, Bool.true_or]
  · next h =>
    simp only [pathExists, fileNames, Bool.or_eq_true]
    left
    simp

theorem pathExists_makedirs_mono {fs : FS} {q : String} (p : String)
    (h : pathExists fs q = true) : pathExists (makedirs fs p) q = true := by
  unfold makedirs
  split
  · exact h
  · simp only [pathExists, fileNames, Bool.or_eq_true] at h ⊢
    simp only [List.contains_iff_exists_mem_beq] at h ⊢
    rcases h with ⟨a, ha, hb⟩ | h
    · exact Or.inl ⟨a, List.mem_cons_of_mem _ ha, hb⟩
    · exact Or.inr h

theorem makedirs_files (fs : FS) (p : String) : (makedirs fs p).files = fs.files := by
  unfold makedirs
  split <;> rfl

/-! ## Configuration helper lemmas -/

theorem cfind_cons (p : String × String) (rest : Config) (k : String) :
    cfind (p :: rest) k = if p.1 == k then some p.2 else cfind rest k := by
  by_cases h : p.1 == k <;> simp [cfind, List.find?_cons, h]

theorem cfind_setKey_self : ∀ (c : Config) (k v : String),
    cfind (setKey c k v) k = some v := by
  intro c k v
  induction c with
  | nil => simp [setKey, cfind]
  | cons p rest ih =>
    by_cases h : p.1 == k
    · simp [setKey, h, cfind_cons]
    · simp [setKey, h, cfind_cons, ih]

theorem cfind_setKey_ne : ∀ (c : Config) (k v k' : String), k' ≠ k →
    cfind (setKey c k v) k' = cfind c k' := by
  intro c k v k' hne
  induction c with
  | nil =>
    have h1 : (k == k') = false := by simp [Ne.symm hne]
    simp [setKey, cfind_cons, h1, cfind]
  | cons p rest ih =>
    by_cases h : p.1 == k
    · have hp : p.1 = k := by simpa using h
      have h1 : (k == k') = false := by simp [Ne.symm hne]
      simp [setKey, h, cfind_cons, h1, hp]
    · simp [setKey, h, cfind_cons, ih]

theorem cfind_eq_none_iff (c : Config) (k : String) :
    cfind c k = none ↔ ∀ p ∈ c, p.1 ≠ k := by
  simp [cfind, List.find?_eq_none]

theorem cfind_dictUpdate : ∀ (m base : Config) (k : String),
    (m.map Prod.fst).Nodup →
    cfind (dictUpdate base m) k =
      match cfind m k with
      | some v => some v
      | none => cfind base k := by
  intro m
  induction m with
  | nil => intro base k _; simp [dictUpdate, cfind]
  | cons p rest ih =>
    intro base k hnd
    simp only [List.map_cons, List.nodup_cons] at hnd
    have hupd : dictUpdate base (p :: rest) = dictUpdate (setKey base p.1 p.2) rest := rfl
    rw [hupd, ih _ k hnd.2]
    by_cases hk : p.1 = k
    · subst hk
      have hrest : cfind rest p.1 = none := by
        rw [cfind_eq_none_iff]
        intro q hq hq1
        exact hnd.1 (hq1 ▸ List.mem_map_of_mem Prod.fst hq)
      rw [hrest]
      simp [cfind_cons, cfind_setKey_self]
    · have hbeq : (p.1 == k) = false := by simp [hk]
      rw [cfind_cons, hbeq]
      rcases hr : cfind rest k with _ | v
      · simp [cfind_setKey_ne base p.1 p.2 k (fun h => hk h.symm)]
      · simp

/-! ## Batch-loop helper lemmas -/

theorem process_loop_counts (env : Env) (cfg : Config) (drive : String) :
    ∀ (cands : List String) (s f : Nat) (errs : List String) (fs : FS),
      (process_loop env cfg drive cands s f errs fs).1
          + (process_loop env cfg drive cands s f errs fs).2.1
        = s + f + cands.length
      ∧ (process_loop env cfg drive cands s f errs fs).2.2.1.length + f
        = errs.length + (process_loop env cfg drive cands s f errs fs).2.1 := by
  intro cands
  induction cands with
  | nil => intro s f errs fs; simp [process_loop]
  | cons fp rest ih =>
    intro s f errs fs
    rcases hpc : process_candidate env cfg drive fs fp with e | fs1
    · have h := ih s (f + 1) (errs ++ [failMsg fp e]) fs
      simp only [process_loop, hpc] at h ⊢
      simp only [List.length_append, List.length_cons, List.length_nil] at h ⊢
      omega
    · have h := ih (s + 1) f errs fs1
      simp only [process_loop, hpc] at h ⊢
      simp only [List.length_cons] at h ⊢
      omega

theorem process_loop_errors (env : Env) (cfg : Config) (drive : String) :
    ∀ (cands : List String) (s f : Nat) (errs : List String) (fs : FS),
      (process_loop env cfg drive cands s f errs fs).2.2.1
        = errs ++ failure_records env cfg drive cands fs := by
  intro cands
  induction cands with
  | nil => intro s f errs fs; simp [process_loop, failure_records]
  | cons fp rest ih =>
    intro s f errs fs
    rcases hpc : process_candidate env cfg drive fs fp with e | fs1
    · simp only [process_loop, failure_records, hpc]
      rw [ih]
      simp
    · simp only [process_loop, failure_records, hpc]
      rw [ih]

theorem ingest_files_eq_loop (env : Env) (cfg : Config) (fs : FS) (drive : String)
    (hs : cfget cfg "source_path" ≠ "")
    (hp : pathExists fs (cfget cfg "source_path") = true)
    (hr : resolve_volume_label_to_drive env (cfget cfg "destination_volume_label") = some drive)
    (hd : drive ≠ "") :
    ingest_files env cfg fs =
      (let r := process_loop env cfg drive
          ((walk_files fs (cfget cfg "source_path")).filter (should_process_file cfg)) 0 0 [] fs
       ((r.1, r.2.1, r.2.2.1), r.2.2.2)) := by
  have h1 : (cfget cfg "source_path" == "" || !pathExists fs (cfget cfg "source_path")) = false := by
    simp [hs, hp]
  have h2 : (drive == "") = false := by simp [hd]
  simp only [ingest_files]
  rw [h1, hr]
  simp [h2]

/-! ## Claim theorems -/

/-- C7. Extension filtering: `should_process_file` accepts a file exactly
when its extension, compared case-insensitively, equals one of the
comma-separated allowlist entries (after stripping); with allowlist
`.RAF, .JPG, .CR2` it accepts `photo.RAF`, `photo.jpg`, `photo.CR2` and
rejects `photo.txt` and `photo.mp4`. -/
theorem extension_filtering :
    (∀ (cfg : Config) (fp : String),
        should_process_file cfg fp = true ↔
          ∃ e ∈ splitOnChar ',' (cfget cfg "file_extensions"),
            upperStr (splitext fp).2 = upperStr (stripStr e))
    ∧ should_process_file cfgThree "photo.RAF" = true
    ∧ should_process_file cfgThree "photo.jpg" = true
    ∧ should_process_file cfgThree "photo.CR2" = true
    ∧ should_process_file cfgThree "photo.txt" = false
    ∧ should_process_file cfgThree "photo.mp4" = false := by
  refine ⟨?_, by decide, by decide, by decide, by decide, by decide⟩
  intro cfg fp
  simp only [should_process_file, get_file_extensions,
    List.contains_iff_exists_mem_beq, List.mem_map]
  constructor
  · rintro ⟨b, ⟨e, he, hb⟩, hbeq⟩
    exact ⟨e, he, by rw [← hb] at hbeq; exact (beq_iff_eq.mp hbeq)⟩
  · rintro ⟨e, he, heq⟩
    exact ⟨upperStr (stripStr e), ⟨e, he, rfl⟩, beq_iff_eq.mpr heq⟩

/-- C8. Path-builder reference input: with the default formats, the
timestamp 2024-03-15 10:30:00 yields exactly
`("2024", "2024-03_March", "Session_March")`; the session segment is the
literal `{month_name}` substitution, and `strftime` applied to the whole
session pattern would leave it unchanged. -/
theorem path_builder_reference :
    construct_path DEFAULT_CONFIG ⟨2024, 3, 15, 10, 30, 0⟩
      = ("2024", "2024-03_March", "Session_March")
    ∧ (∀ (cfg : Config) (d : DateTime),
        (construct_path cfg d).2.2
          = replaceAll (cfget cfg "session_format") "{month_name}" (strftime d "%B"))
    ∧ strftime ⟨2024, 3, 15, 10, 30, 0⟩ (cfget DEFAULT_CONFIG "session_format")
      = "Session_{month_name}" :=
  ⟨by decide, fun _ _ => rfl, by decide⟩

/-- C10. Empty allowlist entry: a configuration whose extension string has a
comma-separated segment stripping to the empty string makes
`should_process_file` accept every extensionless file. -/
theorem empty_allowlist_entry_accepts_extensionless :
    ∀ (cfg : Config) (fp : String),
      (∃ seg ∈ splitOnChar ',' (cfget cfg "file_extensions"), stripStr seg = "") →
      (splitext fp).2 = "" →
      should_process_file cfg fp = true := by
  intro cfg fp h hext
  rcases h with ⟨seg, hmem, hstrip⟩
  simp only [should_process_file, get_file_extensions, hext]
  refine List.contains_iff_exists_mem_beq.mpr
    ⟨upperStr (stripStr seg), List.mem_map_of_mem _ hmem, ?_⟩
  rw [hstrip]
  decide

theorem empty_allowlist_entry_accepts_extensionless_witness :
    (∃ seg ∈ splitOnChar ',' (cfget cfgTrailing "file_extensions"), stripStr seg = "")
    ∧ (splitext "photo").2 = ""
    ∧ should_process_file cfgTrailing "photo" = true :=
  ⟨by decide, by decide,
   empty_allowlist_entry_accepts_extensionless cfgTrailing "photo" (by decide) (by decide)⟩

/-- C2. Fatal preconditions: an empty or nonexistent source path, or an
unresolvable destination volume label, makes `ingest_files` abort with zero
successes, zero failures, exactly one explanatory message, and the
filesystem state returned untouched. -/
theorem fatal_preconditions_abort :
    (∀ (env : Env) (cfg : Config) (fs : FS),
        cfget cfg "source_path" = "" ∨ pathExists fs (cfget cfg "source_path") = false →
        ingest_files env cfg fs = ((0, 0, ["Source path is invalid or does not exist"]), fs))
    ∧ (∀ (env : Env) (cfg : Config) (fs : FS),
        cfget cfg "source_path" ≠ "" →
        pathExists fs (cfget cfg "source_path") = true →
        resolve_volume_label_to_drive env (cfget cfg "destination_volume_label") = none →
        ingest_files env cfg fs =
          ((0, 0, ["Could not resolve volume label \x27"
              ++ cfget cfg "destination_volume_label" ++ "\x27 to a drive"]), fs)) := by
  constructor
  · intro env cfg fs h
    have h1 : (cfget cfg "source_path" == "" || !pathExists fs (cfget cfg "source_path"))
        = true := by
      rcases h with h | h <;> simp [h]
    simp only [ingest_files]
    rw [h1]
    simp
  · intro env cfg fs hs hp hr
    have h1 : (cfget cfg "source_path" == "" || !pathExists fs (cfget cfg "source_path"))
        = false := by
      simp [hs, hp]
    simp only [ingest_files]
    rw [h1, hr]
    simp

theorem fatal_preconditions_abort_witness :
    ingest_files envLocal DEFAULT_CONFIG fsTwo
      = ((0, 0, ["Source path is invalid or does not exist"]), fsTwo)
    ∧ ingest_files envLocal cfgBadLabel fsTwo
      = ((0, 0, ["Could not resolve volume label \x27NOPE\x27 to a drive"]), fsTwo) :=
  ⟨fatal_preconditions_abort.1 envLocal DEFAULT_CONFIG fsTwo (Or.inl (by decide)),
   fatal_preconditions_abort.2 envLocal cfgBadLabel fsTwo (by decide) (by decide) (by decide)⟩

/-- C5. Date-extraction fallback: a present, well-formed EXIF
`DateTimeOriginal` is returned; any EXIF-side failure (unreadable file,
missing tag, malformed value) falls back to the mtime; with the reader
capability absent the mtime is used directly (an mtime failure then raises);
and a fully unavailable date is a per-candidate `Except.error`, which the
batch loop treats as one failure, not as a run-fatal condition. -/
theorem date_extraction_fallback :
    ∀ (env : Env) (fp : String),
      (∀ (raw : String) (dt : DateTime),
          env.exif_available = true → env.read_fails fp = false →
          env.exif_tag fp = some raw → parse_exif_datetime raw = some dt →
          get_exif_date env fp = .ok (some dt))
      ∧ (env.exif_available = true →
          (env.read_fails fp = true ∨ env.exif_tag fp = none ∨
            (∀ raw, env.exif_tag fp = some raw → parse_exif_datetime raw = none)) →
          get_exif_date env fp = .ok (env.mtime fp))
      ∧ (env.exif_available = false →
          get_exif_date env fp =
            match env.mtime fp with
            | some d => .ok (some d)
            | none => .error ("os.path.getmtime failed: " ++ fp))
      ∧ (∀ (cfg : Config) (drive : String) (fs : FS),
          get_exif_date env fp = .ok none →
          process_candidate env cfg drive fs fp = .error "Could not determine file date")
      ∧ (∀ (cfg : Config) (drive : String) (fs : FS) (e : String),
          get_exif_date env fp = .error e →
          process_candidate env cfg drive fs fp = .error e) := by
  intro env fp
  refine ⟨?_, ?_, ?_, ?_, ?_⟩
  · intro raw dt ha hrf ht hp
    simp [get_exif_date, ha, hrf, ht, hp]
  · intro ha hfail
    rcases hfail with h | h | h
    · simp [get_exif_date, ha, h]
    · by_cases hrf : env.read_fails fp <;> simp [get_exif_date, ha, h, hrf]
    · by_cases hrf : env.read_fails fp
      · simp [get_exif_date, ha, hrf]
      · rcases ht : env.exif_tag fp with _ | raw
        · simp [get_exif_date, ha, hrf, ht]
        · simp [get_exif_date, ha, hrf, ht, h raw ht]
  · intro ha
    simp [get_exif_date, ha]
  · intro cfg drive fs h
    simp [process_candidate, h, Bind.bind, Except.bind]
  · intro cfg drive fs e h
    simp [process_candidate, h, Bind.bind, Except.bind]

theorem date_extraction_fallback_witness :
    get_exif_date envExif "f" = .ok (some ⟨2024, 3, 15, 10, 30, 0⟩)
    ∧ process_candidate envNoDate DEFAULT_CONFIG "C:\\" fsTwo "f"
        = .error "Could not determine file date" :=
  ⟨(date_extraction_fallback envExif "f").1 "2024:03:15 10:30:00" ⟨2024, 3, 15, 10, 30, 0⟩
      rfl rfl rfl (by decide),
   (date_extraction_fallback envNoDate "f").2.2.2.1 DEFAULT_CONFIG "C:\\" fsTwo rfl⟩

/-- C3. Idempotent session reuse: when the canonical marker file already
exists, `find_or_create_session` returns the canonical session path, leaves
every file (the marker included) untouched, creates the `Capture` subfolder
only when it is missing, and a second identical call changes nothing and
returns the same path. -/
theorem session_reuse_idempotent :
    ∀ (cfg : Config) (fs : FS) (root y m sn : String),
      pathExists fs (pjoin (pjoin (pjoin (pjoin root y) m) sn) (sn ++ ".cosessiondb")) = true →
      (find_or_create_session cfg fs root y m sn).2 = pjoin (pjoin (pjoin root y) m) sn
      ∧ ((find_or_create_session cfg fs root y m sn).1).files = fs.files
      ∧ ((find_or_create_session cfg fs root y m sn).1).dirs
          = (if pathExists fs (pjoin (pjoin (pjoin (pjoin root y) m) sn) "Capture") = true
             then fs.dirs
             else pjoin (pjoin (pjoin (pjoin root y) m) sn) "Capture" :: fs.dirs)
      ∧ find_or_create_session cfg ((find_or_create_session cfg fs root y m sn).1) root y m sn
          = ((find_or_create_session cfg fs root y m sn).1, pjoin (pjoin (pjoin root y) m) sn) := by
  intro cfg fs root y m sn hdb
  by_cases hcap : pathExists fs (pjoin (pjoin (pjoin (pjoin root y) m) sn) "Capture") = true
  · have heq : find_or_create_session cfg fs root y m sn
        = (fs, pjoin (pjoin (pjoin root y) m) sn) := by
      simp only [find_or_create_session]
      rw [hdb, hcap]
      simp
    rw [heq]
    refine ⟨rfl, rfl, by simp [hcap], ?_⟩
    simp only [find_or_create_session]
    rw [hdb, hcap]
    simp
  · have hcapf : pathExists fs (pjoin (pjoin (pjoin (pjoin root y) m) sn) "Capture") = false := by
      simpa using hcap
    have heq : find_or_create_session cfg fs root y m sn
        = (makedirs fs (pjoin (pjoin (pjoin (pjoin root y) m) sn) "Capture"),
           pjoin (pjoin (pjoin root y) m) sn) := by
      simp only [find_or_create_session]
      rw [hdb, hcapf]
      simp
    rw [heq]
    have hdirsc : fs.dirs.contains (pjoin (pjoin (pjoin (pjoin root y) m) sn) "Capture")
        = false := by
      simp only [pathExists, Bool.or_eq_false_iff] at hcapf
      exact hcapf.1
    refine ⟨rfl, makedirs_files fs _, ?_, ?_⟩
    · have hmd : (makedirs fs (pjoin (pjoin (pjoin (pjoin root y) m) sn) "Capture")).dirs
          = pjoin (pjoin (pjoin (pjoin root y) m) sn) "Capture" :: fs.dirs := by
        unfold makedirs
        rw [hdirsc]
        simp
      rw [hmd, hcapf]
      simp
    · have hdb' := pathExists_makedirs_mono
        (pjoin (pjoin (pjoin (pjoin root y) m) sn) "Capture") hdb
      have hcap' := pathExists_makedirs_self fs
        (pjoin (pjoin (pjoin (pjoin root y) m) sn) "Capture")
      simp only [find_or_create_session]
      rw [hdb', hcap']
      simp

theorem session_reuse_idempotent_witness :
    (find_or_create_session DEFAULT_CONFIG fsMarker "R" "Y" "M" "S").2
        = pjoin (pjoin (pjoin "R" "Y") "M") "S"
    ∧ ((find_or_create_session DEFAULT_CONFIG fsMarker "R" "Y" "M" "S").1).files
        = fsMarker.files :=
  ⟨(session_reuse_idempotent DEFAULT_CONFIG fsMarker "R" "Y" "M" "S" (by decide)).1,
   (session_reuse_idempotent DEFAULT_CONFIG fsMarker "R" "Y" "M" "S" (by decide)).2.1⟩

/-- C6. Configuration round-trip: saving a mapping and loading it back
yields every saved binding unchanged (unknown keys included), defaults for
keys never set, and loading a missing or unparseable file yields the
defaults without raising. -/
theorem config_round_trip :
    (∀ (mp : Config), (mp.map Prod.fst).Nodup →
        (∀ k v, cfind mp k = some v → cfind (load_config (save_config mp)) k = some v)
        ∧ (∀ k, cfind mp k = none →
            cfind (load_config (save_config mp)) k = cfind DEFAULT_CONFIG k))
    ∧ load_config none = DEFAULT_CONFIG
    ∧ load_config (some ConfigFile.corrupt) = DEFAULT_CONFIG := by
  refine ⟨?_, rfl, rfl⟩
  intro mp hnd
  constructor
  · intro k v hk
    show cfind (dictUpdate DEFAULT_CONFIG mp) k = some v
    rw [cfind_dictUpdate mp DEFAULT_CONFIG k hnd, hk]
  · intro k hk
    show cfind (dictUpdate DEFAULT_CONFIG mp) k = _
    rw [cfind_dictUpdate mp DEFAULT_CONFIG k hnd, hk]

theorem config_round_trip_witness :
    cfind (load_config (save_config mRound)) "source_path" = some "/test/path"
    ∧ cfind (load_config (save_config mRound)) "custom_key" = some "42"
    ∧ cfind (load_config (save_config mRound)) "year_format"
        = cfind DEFAULT_CONFIG "year_format" :=
  ⟨(config_round_trip.1 mRound (by decide)).1 "source_path" "/test/path" (by decide),
   (config_round_trip.1 mRound (by decide)).1 "custom_key" "42" (by decide),
   (config_round_trip.1 mRound (by decide)).2 "year_format" (by decide)⟩

/-- C4. Totality of the engine boundary: past the two step-1 precondition
checks, `ingest_files` is exactly the batch loop over the filtered
candidates, and that loop catches every per-candidate `Except.error` — a
success advances the success counter, a caught failure advances the failure
counter and appends its human-readable record, and the loop continues with
the remaining candidates either way, always returning a
`(success, fail, errors)` triple. -/
theorem engine_totality :
    (∀ (env : Env) (cfg : Config) (fs : FS) (drive : String),
        cfget cfg "source_path" ≠ "" →
        pathExists fs (cfget cfg "source_path") = true →
        resolve_volume_label_to_drive env (cfget cfg "destination_volume_label") = some drive →
        drive ≠ "" →
        ingest_files env cfg fs =
          (let r := process_loop env cfg drive
              ((walk_files fs (cfget cfg "source_path")).filter (should_process_file cfg))
              0 0 [] fs
           ((r.1, r.2.1, r.2.2.1), r.2.2.2)))
    ∧ (∀ (env : Env) (cfg : Config) (drive : String) (fs : FS) (file_path : String)
          (rest : List String) (s f : Nat) (errs : List String) (fs1 : FS),
        process_candidate env cfg drive fs file_path = .ok fs1 →
        process_loop env cfg drive (file_path :: rest) s f errs fs =
          process_loop env cfg drive rest (s + 1) f errs fs1)
    ∧ (∀ (env : Env) (cfg : Config) (drive : String) (fs : FS) (file_path : String)
          (rest : List String) (s f : Nat) (errs : List String) (e : String),
        process_candidate env cfg drive fs file_path = .error e →
        process_loop env cfg drive (file_path :: rest) s f errs fs =
          process_loop env cfg drive rest s (f + 1) (errs ++ [failMsg file_path e]) fs) := by
  refine ⟨fun env cfg fs drive hs hp hr hd => ingest_files_eq_loop env cfg fs drive hs hp hr hd,
    ?_, ?_⟩
  · intro env cfg drive fs file_path rest s f errs fs1 h
    simp [process_loop, h]
  · intro env cfg drive fs file_path rest s f errs e h
    simp [process_loop, h]

theorem engine_totality_witness :
    ingest_files envLocal cfgIngest fsTwo =
      (let r := process_loop envLocal cfgIngest "C:\\"
          ((walk_files fsTwo (cfget cfgIngest "source_path")).filter
            (should_process_file cfgIngest)) 0 0 [] fsTwo
       ((r.1, r.2.1, r.2.2.1), r.2.2.2)) :=
  engine_totality.1 envLocal cfgIngest fsTwo "C:\\" (by decide) (by decide) rfl (by decide)

/-- C9. Result accounting: past the precondition checks, the success and
failure counters sum to the number of filtered candidates (each candidate
lands in exactly one of them), the number of error messages equals the
failure counter, and the error list is exactly the failure records of the
candidates in processing order. -/
theorem result_accounting :
    ∀ (env : Env) (cfg : Config) (fs : FS) (drive : String),
      cfget cfg "source_path" ≠ "" →
      pathExists fs (cfget cfg "source_path") = true →
      resolve_volume_label_to_drive env (cfget cfg "destination_volume_label") = some drive →
      drive ≠ "" →
      (ingest_files env cfg fs).1.1 + (ingest_files env cfg fs).1.2.1
        = ((walk_files fs (cfget cfg "source_path")).filter (should_process_file cfg)).length
      ∧ (ingest_files env cfg fs).1.2.2.length = (ingest_files env cfg fs).1.2.1
      ∧ (ingest_files env cfg fs).1.2.2
        = failure_records env cfg drive
            ((walk_files fs (cfget cfg "source_path")).filter (should_process_file cfg)) fs := by
  intro env cfg fs drive hs hp hr hd
  rw [ingest_files_eq_loop env cfg fs drive hs hp hr hd]
  have h := process_loop_counts env cfg drive
    ((walk_files fs (cfget cfg "source_path")).filter (should_process_file cfg)) 0 0 [] fs
  have he := process_loop_errors env cfg drive
    ((walk_files fs (cfget cfg "source_path")).filter (should_process_file cfg)) 0 0 [] fs
  simp only [List.length_nil] at h
  simp only [List.nil_append] at he
  dsimp only
  exact ⟨by omega, by omega, he⟩

theorem result_accounting_witness :
    (ingest_files envMixed cfgIngest fsMix).1.1 + (ingest_files envMixed cfgIngest fsMix).1.2.1
      = ((walk_files fsMix (cfget cfgIngest "source_path")).filter
          (should_process_file cfgIngest)).length
    ∧ (ingest_files envMixed cfgIngest fsMix).1.2.2.length
      = (ingest_files envMixed cfgIngest fsMix).1.2.1
    ∧ (ingest_files envMixed cfgIngest fsMix).1.2.2
      = failure_records envMixed cfgIngest "C:\\"
          ((walk_files fsMix (cfget cfgIngest "source_path")).filter
            (should_process_file cfgIngest)) fsMix :=
  result_accounting envMixed cfgIngest fsMix "C:\\" (by decide) (by decide) rfl (by decide)

/-- C1 (counterexample to the claim as stated).  A capture folder in which
every tried name up to `a_9998.x` exists but the name produced at the final
counter value, `a_9999.x`, is free: the loop reaches that name and its
existence check finds it free, yet `counter` has reached `max_attempts`, so
the candidate is recorded as failed ("Too many duplicate filenames") instead
of being moved to the free name so produced. -/
theorem collision_failure_despite_free_name :
    resolve_dest occAllBut9999 "C" "a.x" = .error "Too many duplicate filenames"
    ∧ occAllBut9999 (candidateName "C" "a.x" 9999) = false
    ∧ candidateName "C" "a.x" 9999 = "C/a_9999.x" := by
  refine ⟨resolve_dest_error ?_, by decide, rfl⟩
  intro j hj
  cases j with
  | zero => decide
  | succ k =>
    show occAllBut9999 (suffixedName "C" "a" ".x" (k + 1)) = true
    have hne : suffixedName "C" "a" ".x" (k + 1) ≠ "C/a_9999.x" := by
      intro h
      have h9 : ("C/a_9999.x" : String) = suffixedName "C" "a" ".x" 9999 := rfl
      rw [h9] at h
      have := suffixedName_inj h
      omega
    simp [occAllBut9999, hne]

/-- C1 (amended).  Collision resolution appends `_N` with `N` starting at 1:
the candidate is moved to the first free name among the unsuffixed name and
the `_1` … `_9998`-suffixed names; when all of those are occupied the
counter reaches the 10,000 bound and the candidate is recorded as failed —
even if the `_9999`-suffixed name produced at the final attempt is free.
Moving two same-named files into one capture folder leaves the second named
with a `_1` suffix and both files present under distinct names. -/
theorem collision_resolution_characterization :
    (∀ (occupied : String → Bool) (cap name : String) (k : Nat),
        k ≤ 9998 → occupied (candidateName cap name k) = false →
        (∀ j, j < k → occupied (candidateName cap name j) = true) →
        resolve_dest occupied cap name = .ok (candidateName cap name k))
    ∧ (∀ (occupied : String → Bool) (cap name : String),
        (∀ j, j ≤ 9998 → occupied (candidateName cap name j) = true) →
        resolve_dest occupied cap name = .error "Too many duplicate filenames")
    ∧ (ingest_files envLocal cfgIngest fsTwo).1 = (2, 0, [])
    ∧ pathExists (ingest_files envLocal cfgIngest fsTwo).2
        "C:\\/2024/2024-03_March/Session_March/Capture/a.RAF" = true
    ∧ pathExists (ingest_files envLocal cfgIngest fsTwo).2
        "C:\\/2024/2024-03_March/Session_March/Capture/a_1.RAF" = true :=
  ⟨fun _ _ _ _ hk hfree hocc => resolve_dest_ok hk hfree hocc,
   fun _ _ _ hocc => resolve_dest_error hocc,
   by decide, by decide, by decide⟩

theorem collision_resolution_characterization_witness :
    resolve_dest (fun s => s == "C/a.x") "C" "a.x"
      = .ok (candidateName "C" "a.x" 1)
    ∧ resolve_dest (fun _ => true) "C" "a.x"
      = .error "Too many duplicate filenames" :=
  ⟨collision_resolution_characterization.1 (fun s => s == "C/a.x") "C" "a.x" 1
      (by omega) (by decide)
      (fun j hj => by
        have hj0 : j = 0 := by omega
        subst hj0
        decide),
   collision_resolution_characterization.2.1 (fun _ => true) "C" "a.x"
      (fun j hj => rfl)⟩

end RawHopper
